import Mathlib

/-!
Verification development for the netmon-desktop sampling scheduler
(`netmon/scheduler.py`), its data model (`netmon/models.py`), the result
store (`netmon/ui/measurement_model.py`), the ping collector constructor
(`netmon/collector_ping.py`) and the clear-data operation of the main
window (`netmon/ui/main_window.py`).

The Python code is shallowly embedded: every definition below is a direct
translation of the corresponding Python function, with Python dicts
modelled as association lists (`dictSet` / `dictGetD` / `dictPop` mirror
`d[k] = v`, `d.get(k, default)` and `d.pop(k, None)` on dicts whose keys
are unique, which is the only situation the scheduler creates), Python
ints modelled as `Int` (or `Nat` for the generation counter, which starts
at 0 and is only ever incremented), `float` latencies modelled as `Rat`
(no arithmetic on them is ever performed in the embedded code), and the
`datetime` timestamp modelled as an opaque `Nat`.
-/

/-- Python `str.strip()`: remove leading and trailing whitespace. -/
def pyStrip (s : String) : String :=
  ⟨((s.data.dropWhile Char.isWhitespace).reverse.dropWhile Char.isWhitespace).reverse⟩

/-- Python `d[k] = v` on a dict represented as an association list:
update the (unique) binding of `k` in place if present, otherwise append
the new binding at the end (insertion order, as Python dicts do). -/
def dictSet : List (String × Bool) → String → Bool → List (String × Bool)
  | [], k, v => [(k, v)]
  | p :: rest, k, v => if p.1 = k then (k, v) :: rest else p :: dictSet rest k v

/-- Python `d.get(k, default)`. -/
def dictGetD : List (String × Bool) → String → Bool → Bool
  | [], _, dflt => dflt
  | p :: rest, k, dflt => if p.1 = k then p.2 else dictGetD rest k dflt

/-- Python `d.pop(k, None)`: remove the binding of `k` (keys are unique in
every dict the scheduler builds, so removing every pair with key `k` is
the same as removing the one binding). -/
def dictPop (d : List (String × Bool)) (k : String) : List (String × Bool) :=
  d.filter (fun p => p.1 ≠ k)

/-- `netmon/models.py`, `Measurement`: a single network measurement
sample.  `latency_ms = none` indicates packet loss. -/
structure Measurement where
  ts : Nat
  host : String
  latency_ms : Option Rat
  loss : Bool
deriving DecidableEq, Repr

/-- The `Measurement` dataclass constructor followed by
`Measurement.__post_init__` (models.py lines 16-21): if `loss` is set,
force `latency_ms` to `None`; else if `latency_ms` is `None`, force
`loss` to `True`. -/
def mkMeasurement (ts : Nat) (host : String) (latency_ms : Option Rat) (loss : Bool) :
    Measurement :=
  if loss then ⟨ts, host, none, true⟩
  else
    match latency_ms with
    | none => ⟨ts, host, none, true⟩
    | some x => ⟨ts, host, some x, false⟩

/-- The fields of `MultiHostScheduler` (scheduler.py `__init__`, lines
42-66) that the embedded methods read or write.  The Qt collector, timer
and thread-pool objects carry no scheduler-visible state and are omitted. -/
structure SchedState where
  hosts : List String
  hostInFlight : List (String × Bool)
  globalInFlight : Int
  generationId : Nat
  isMonitoring : Bool
  interval_ms : Int
  maxConcurrent : Int
deriving DecidableEq, Repr

/-- `MultiHostScheduler.__init__` (scheduler.py lines 27-66): note that it
performs no validation of `interval_ms` or `max_concurrent`; every value
is accepted and stored. -/
def MultiHostScheduler.init (interval_ms : Int) (max_concurrent : Int) : SchedState :=
  { hosts := []
    hostInFlight := []
    globalInFlight := 0
    generationId := 0
    isMonitoring := false
    interval_ms := interval_ms
    maxConcurrent := max_concurrent }

/-- `MultiHostScheduler.add_host` (scheduler.py lines 68-81). -/
def add_host (s : SchedState) (host : String) : SchedState :=
  let h := pyStrip host
  if h = "" then s
  else if h ∈ s.hosts then s
  else { s with hosts := s.hosts ++ [h], hostInFlight := dictSet s.hostInFlight h false }

/-- `MultiHostScheduler.remove_host` (scheduler.py lines 83-92). -/
def remove_host (s : SchedState) (host : String) : SchedState :=
  if host ∈ s.hosts then
    { s with hosts := s.hosts.erase host, hostInFlight := dictPop s.hostInFlight host }
  else s

/-- `MultiHostScheduler.start_monitoring` (scheduler.py lines 108-115):
idempotent, starts the timer, does not touch the generation counter. -/
def start_monitoring (s : SchedState) : SchedState :=
  if s.isMonitoring then s else { s with isMonitoring := true }

/-- `MultiHostScheduler.stop_monitoring` (scheduler.py lines 117-125):
idempotent; when monitoring it stops the timer and increments the
generation counter. -/
def stop_monitoring (s : SchedState) : SchedState :=
  if !s.isMonitoring then s
  else { s with isMonitoring := false, generationId := s.generationId + 1 }

/-- `MultiHostScheduler._on_sample_ready` (scheduler.py lines 207-230):
returns the payload of the `sample_ready` signal emission, or `none` when
the result is discarded (stale generation, or not monitoring).  The
handler never mutates scheduler state. -/
def on_sample_ready (s : SchedState) (generation_id : Nat) (host : String)
    (sample : Measurement) : Option (Measurement × Nat × String) :=
  if generation_id ≠ s.generationId then none
  else if !s.isMonitoring then none
  else some (sample, generation_id, host)

/-- `MultiHostScheduler._on_sample_finished` (scheduler.py lines 243-260):
clear the per-host flag (Python `self._host_in_flight[host] = False`,
which re-inserts the key if it had been removed) and decrement the global
counter, floored at 0. -/
def on_sample_finished (s : SchedState) (host : String) : SchedState :=
  { s with
    hostInFlight := dictSet s.hostInFlight host false
    globalInFlight := max 0 (s.globalInFlight - 1) }

/-- An outstanding worker: the target host and the generation captured at
dispatch time (`SampleWorker(self.collector, host, generation_id)`,
scheduler.py line 199). -/
abbrev Worker := String × Nat

/-- The scheduler together with its asynchronous environment: the
multiset (list) of dispatched-but-not-finished workers, and the stream of
results forwarded through the `sample_ready` signal to the result store. -/
structure SysState where
  sched : SchedState
  outstanding : List Worker
  store : List (Measurement × Nat × String)
deriving DecidableEq, Repr

/-- `MultiHostScheduler._schedule_sample` (scheduler.py lines 185-205):
mark the host in-flight, increment the global counter, capture the
current generation and hand the worker to the thread pool (here: append
it to the outstanding multiset). -/
def schedule_sample (s : SysState) (host : String) : SysState :=
  let sch := s.sched
  { s with
    sched := { sch with
      hostInFlight := dictSet sch.hostInFlight host true
      globalInFlight := sch.globalInFlight + 1 }
    outstanding := s.outstanding ++ [(host, sch.generationId)] }

/-- The `for host in self._hosts` loop of `_schedule_tick` (scheduler.py
lines 162-175).  Returns the resulting state together with the list of
hosts dispatched this tick (the code only counts them for logging; the
list is the natural observation for the fairness claim). -/
def tickLoop : List String → SysState → List String → SysState × List String
  | [], s, dispatched => (s, dispatched)
  | host :: rest, s, dispatched =>
    if s.sched.maxConcurrent ≤ s.sched.globalInFlight then (s, dispatched)
    else if dictGetD s.sched.hostInFlight host false then tickLoop rest s dispatched
    else tickLoop rest (schedule_sample s host) (dispatched ++ [host])

/-- `MultiHostScheduler._schedule_tick` (scheduler.py lines 138-183). -/
def schedule_tick (s : SysState) : SysState × List String :=
  if !s.sched.isMonitoring then (s, [])
  else if s.sched.hosts.length = 0 then (s, [])
  else if s.sched.maxConcurrent ≤ s.sched.globalInFlight then (s, [])
  else tickLoop s.sched.hosts s []

/-- Delivery of a worker's `sample_ready` signal to the scheduler slot:
if the scheduler forwards it, the payload is appended to the result
stream; otherwise nothing changes. -/
def readyStep (s : SysState) (w : Worker) (m : Measurement) : SysState :=
  match on_sample_ready s.sched w.2 w.1 m with
  | none => s
  | some e => { s with store := s.store ++ [e] }

/-- The events of the scheduler's environment: the public operations, a
timer tick, and the asynchronous deliveries (`sample_ready` /
`finished`) of an outstanding worker. -/
inductive Event where
  | addHost (h : String)
  | removeHost (h : String)
  | startMon
  | stopMon
  | tick
  | ready (w : Worker) (m : Measurement)
  | finish (w : Worker)

/-- Remove the first occurrence of the completing worker from the
outstanding multiset. -/
def eraseWorker : List Worker → Worker → List Worker
  | [], _ => []
  | p :: rest, w => if p = w then rest else p :: eraseWorker rest w

/-- One step of the scheduler system.  A `finish` delivery removes one
occurrence of the worker from the outstanding multiset and runs
`_on_sample_finished`; deliveries for workers that are not outstanding do
nothing. -/
def applyEvent (s : SysState) : Event → SysState
  | .addHost h => { s with sched := add_host s.sched h }
  | .removeHost h => { s with sched := remove_host s.sched h }
  | .startMon => { s with sched := start_monitoring s.sched }
  | .stopMon => { s with sched := stop_monitoring s.sched }
  | .tick => (schedule_tick s).1
  | .ready w m => if w ∈ s.outstanding then readyStep s w m else s
  | .finish w =>
    if w ∈ s.outstanding then
      { s with
        outstanding := eraseWorker s.outstanding w
        sched := on_sample_finished s.sched w.1 }
    else s

/-- Run a concrete trace of events. -/
def run (s : SysState) (evs : List Event) : SysState :=
  evs.foldl applyEvent s

/-- The freshly constructed system: a new scheduler and no outstanding
workers. -/
def initSys (interval_ms max_concurrent : Int) : SysState :=
  { sched := MultiHostScheduler.init interval_ms max_concurrent
    outstanding := []
    store := [] }

/-- Reachability under arbitrary interleavings of operations, ticks and
worker deliveries. -/
inductive Reachable : SysState → SysState → Prop
  | refl (s : SysState) : Reachable s s
  | step (s t : SysState) (e : Event) : Reachable s t → Reachable s (applyEvent t e)

/-- Number of outstanding workers targeting host `h`. -/
def outCount (l : List Worker) (h : String) : Nat :=
  l.countP (fun w => w.1 == h)

/-- Event guard for the amended single-flight claim: `removeHost` is only
applied to hosts with no outstanding worker; every other event is
unrestricted. -/
def OkEvent (s : SysState) : Event → Prop
  | .removeHost h => outCount s.outstanding h = 0
  | _ => True

/-- Reachability when no host with an outstanding worker is removed. -/
inductive ReachableR : SysState → SysState → Prop
  | refl (s : SysState) : ReachableR s s
  | step (s t : SysState) (e : Event) :
      ReachableR s t → OkEvent t e → ReachableR s (applyEvent t e)

/-- `netmon/ui/measurement_model.py`, `MeasurementModel.__init__` (lines
15-26): the measurement deque and the row limit.  The Qt column/string
caches are presentation-only constants and carry no model state. -/
structure MeasurementModel where
  measurements : List Measurement
  max_rows : Int
deriving DecidableEq, Repr

/-- `MeasurementModel.__init__`: accepts any `max_rows` without
validation. -/
def MeasurementModel.init (max_rows : Int) : MeasurementModel :=
  { measurements := [], max_rows := max_rows }

/-- `MeasurementModel.append_measurement` (lines 87-107): when at capacity
(`len(self._measurements) >= self._max_rows`) pop the oldest entry first,
then append at the end.  `popleft()` on an empty deque raises
`IndexError`, modelled as `Except.error`. -/
def append_measurement (mm : MeasurementModel) (m : Measurement) :
    Except String MeasurementModel :=
  if mm.max_rows ≤ (mm.measurements.length : Int) then
    match mm.measurements with
    | [] => Except.error "IndexError"
    | _ :: rest => Except.ok { mm with measurements := rest ++ [m] }
  else Except.ok { mm with measurements := mm.measurements ++ [m] }

/-- `MeasurementModel.clear` (lines 109-116): early return when already
empty, otherwise empty the deque. -/
def MeasurementModel.clear (mm : MeasurementModel) : MeasurementModel :=
  if mm.measurements.length = 0 then mm else { mm with measurements := [] }

/-- An operation on the result store. -/
inductive MOp where
  | append (m : Measurement)
  | clear

/-- Run a sequence of store operations, propagating a raised
`IndexError`. -/
def runOps (mm : MeasurementModel) : List MOp → Except String MeasurementModel
  | [] => Except.ok mm
  | MOp.append m :: rest =>
    match append_measurement mm m with
    | Except.ok mm' => runOps mm' rest
    | Except.error e => Except.error e
  | MOp.clear :: rest => runOps mm.clear rest

/-- The measurements passed to `append_measurement` by a sequence of
operations, in arrival order. -/
def appendedVals : List MOp → List Measurement
  | [] => []
  | MOp.append m :: rest => m :: appendedVals rest
  | MOp.clear :: rest => appendedVals rest

/-- The parts of `MainWindow` state (`netmon/ui/main_window.py`) that the
clear-data operation touches: the scheduler and the measurement model.
Per-host statistics and labels are presentation-only and omitted. -/
structure MainWindowState where
  scheduler : SchedState
  measurement_model : MeasurementModel
deriving DecidableEq, Repr

/-- `MainWindow.clear_data` (main_window.py lines 394-416): clears the
measurement model and the per-host statistics and updates the status
label.  It makes no call into the scheduler. -/
def clear_data (w : MainWindowState) : MainWindowState :=
  { w with measurement_model := w.measurement_model.clear }

/-- `netmon/collector_ping.py`, the fields of `PingCollector` set by its
constructor (`platform.system()` is environment-dependent and omitted). -/
structure PingCollector where
  timeout_ms : Int
  timeout_seconds : Rat
deriving DecidableEq, Repr

/-- `PingCollector.__init__` (collector_ping.py lines 85-103): raises
`ValueError("timeout_ms must be positive")` for `timeout_ms <= 0`,
otherwise stores the timeout. -/
def PingCollector.init (timeout_ms : Int) : Except String PingCollector :=
  if timeout_ms ≤ 0 then Except.error "timeout_ms must be positive"
  else Except.ok { timeout_ms := timeout_ms, timeout_seconds := (timeout_ms : Rat) / 1000 }

section DictLemmas

theorem dictGetD_set_self (d : List (String × Bool)) (k : String) (v dflt : Bool) :
    dictGetD (dictSet d k v) k dflt = v := by
  induction d with
  | nil => simp [dictSet, dictGetD]
  | cons p rest ih =>
    by_cases h : p.1 = k
    · simp [dictSet, h, dictGetD]
    · simp [dictSet, h, dictGetD, ih]

theorem dictGetD_set_ne (d : List (String × Bool)) (k k' : String) (v dflt : Bool)
    (h : k' ≠ k) : dictGetD (dictSet d k v) k' dflt = dictGetD d k' dflt := by
  have hk' : k ≠ k' := Ne.symm h
  induction d with
  | nil => simp [dictSet, dictGetD, hk']
  | cons p rest ih =>
    by_cases hp : p.1 = k
    · have hpk' : ¬ p.1 = k' := fun hh => hk' (hp.symm.trans hh)
      simp [dictSet, hp, dictGetD, hk', hpk']
    · by_cases hp' : p.1 = k'
      · simp [dictSet, hp, dictGetD, hp', h]
      · simp [dictSet, hp, dictGetD, hp', ih]

theorem dictGetD_pop_ne (d : List (String × Bool)) (k k' : String) (dflt : Bool)
    (h : k' ≠ k) : dictGetD (dictPop d k) k' dflt = dictGetD d k' dflt := by
  induction d with
  | nil => simp [dictPop, dictGetD]
  | cons p rest ih =>
    by_cases hp : p.1 = k
    · have hpk' : ¬ p.1 = k' := fun hh => h (hh.symm.trans hp)
      rw [show dictPop (p :: rest) k = dictPop rest k by
        simp [dictPop, List.filter, hp]]
      rw [ih]
      simp [dictGetD, hpk']
    · rw [show dictPop (p :: rest) k = p :: dictPop rest k by
        simp [dictPop, List.filter, hp]]
      by_cases hp' : p.1 = k'
      · simp [dictGetD, hp']
      · simp [dictGetD, hp', ih]

theorem dictSet_not_mem (d : List (String × Bool)) (k : String) (v : Bool)
    (h : ∀ p ∈ d, p.1 ≠ k) : dictSet d k v = d ++ [(k, v)] := by
  induction d with
  | nil => simp [dictSet]
  | cons p rest ih =>
    have hp : p.1 ≠ k := h p (List.mem_cons_self p rest)
    simp [dictSet, hp]
    exact ih (fun q hq => h q (List.mem_cons_of_mem p hq))

theorem dictPop_no_key (d : List (String × Bool)) (k : String) :
    ∀ p ∈ dictPop d k, p.1 ≠ k := by
  intro p hp
  have := List.mem_filter.mp hp
  exact of_decide_eq_true this.2

end DictLemmas

/-- C1: each effective `stop_monitoring` increments the generation by 1,
and `start_monitoring`, `add_host`, `remove_host` never change it; but
`MainWindow.clear_data` (the clear-collected-data operation) leaves the
scheduler — in particular its generation counter — entirely unchanged,
contradicting the claim, spec §4.1, and the repository's own tests
(`test_integration_gen_id.py`, `test_generation_id.py`). -/
theorem clear_data_leaves_generation_unchanged (w : MainWindowState) :
    (clear_data w).scheduler = w.scheduler ∧
    (clear_data w).scheduler.generationId = w.scheduler.generationId ∧
    (w.scheduler.isMonitoring = true →
      (stop_monitoring w.scheduler).generationId = w.scheduler.generationId + 1) ∧
    (∀ h, (add_host w.scheduler h).generationId = w.scheduler.generationId) ∧
    (∀ h, (remove_host w.scheduler h).generationId = w.scheduler.generationId) ∧
    (start_monitoring w.scheduler).generationId = w.scheduler.generationId := by
  refine ⟨rfl, rfl, ?_, ?_, ?_, ?_⟩
  · intro hm
    simp [stop_monitoring, hm]
  · intro h
    unfold add_host
    by_cases h1 : pyStrip h = ""
    · simp [h1]
    · by_cases h2 : pyStrip h ∈ w.scheduler.hosts <;> simp [h1, h2]
  · intro h
    unfold remove_host
    by_cases h1 : h ∈ w.scheduler.hosts <;> simp [h1]
  · unfold start_monitoring
    by_cases h1 : w.scheduler.isMonitoring <;> simp [h1]

/-- Witness for `clear_data_leaves_generation_unchanged` at a concrete
running main-window state. -/
theorem clear_data_leaves_generation_unchanged_witness :
    let w : MainWindowState :=
      { scheduler := { hosts := ["a"], hostInFlight := [("a", false)],
                       globalInFlight := 0, generationId := 0, isMonitoring := true,
                       interval_ms := 1000, maxConcurrent := 4 },
        measurement_model := MeasurementModel.init 300 }
    (clear_data w).scheduler = w.scheduler ∧
    (clear_data w).scheduler.generationId = w.scheduler.generationId ∧
    (w.scheduler.isMonitoring = true →
      (stop_monitoring w.scheduler).generationId = w.scheduler.generationId + 1) ∧
    (∀ h, (add_host w.scheduler h).generationId = w.scheduler.generationId) ∧
    (∀ h, (remove_host w.scheduler h).generationId = w.scheduler.generationId) ∧
    (start_monitoring w.scheduler).generationId = w.scheduler.generationId :=
  clear_data_leaves_generation_unchanged _

/-- C2: a delivered result whose captured generation differs from the
current generation, or which arrives while monitoring is stopped, is
discarded: `_on_sample_ready` emits nothing and the whole system state —
in particular the result store — is unchanged. -/
theorem stale_result_discarded (s : SysState) (w : Worker) (m : Measurement)
    (h : w.2 ≠ s.sched.generationId ∨ s.sched.isMonitoring = false) :
    on_sample_ready s.sched w.2 w.1 m = none ∧
    applyEvent s (Event.ready w m) = s := by
  have hnone : on_sample_ready s.sched w.2 w.1 m = none := by
    unfold on_sample_ready
    rcases h with h | h
    · simp [h]
    · by_cases hg : w.2 = s.sched.generationId <;> simp [hg, h]
  refine ⟨hnone, ?_⟩
  by_cases hw : w ∈ s.outstanding
  · simp [applyEvent, hw, readyStep, hnone]
  · simp [applyEvent, hw]

/-- Witness for `stale_result_discarded`: a worker stamped with
generation 1 delivering to a fresh scheduler at generation 0. -/
theorem stale_result_discarded_witness :
    ((("h", 1) : Worker).2 ≠ (initSys 1000 4).sched.generationId ∨
      (initSys 1000 4).sched.isMonitoring = false) ∧
    (on_sample_ready (initSys 1000 4).sched (("h", 1) : Worker).2
        (("h", 1) : Worker).1 (mkMeasurement 0 "h" none true) = none ∧
      applyEvent (initSys 1000 4)
        (Event.ready ("h", 1) (mkMeasurement 0 "h" none true)) = initSys 1000 4) :=
  ⟨Or.inl (by decide),
   stale_result_discarded (initSys 1000 4) ("h", 1) (mkMeasurement 0 "h" none true)
     (Or.inl (by decide))⟩

/-- C5 counterexample: hosts `a`, `b`, `c` added in that order with
capacity 1 and monitoring running; the first tick dispatches `a`, `a`'s
probe completes before the next tick, and the second tick dispatches `a`
again — not `b` as the claim states: the tick loop restarts from the head
of the host list every tick and skips only in-flight hosts. -/
theorem second_tick_dispatches_a_not_b :
    (schedule_tick (run (initSys 1000 1)
        [Event.addHost "a", Event.addHost "b", Event.addHost "c", Event.startMon])).2
      = ["a"] ∧
    (schedule_tick (applyEvent
        (schedule_tick (run (initSys 1000 1)
          [Event.addHost "a", Event.addHost "b", Event.addHost "c", Event.startMon])).1
        (Event.finish ("a", 0)))).2 ≠ ["b"] := by
  decide

/-- C5 amended: under the claim's scenario the first tick dispatches `a`
and the second tick dispatches `a` a second time (host `b` is reached
only while `a` is still in flight). -/
theorem second_tick_dispatches_a_again :
    (schedule_tick (run (initSys 1000 1)
        [Event.addHost "a", Event.addHost "b", Event.addHost "c", Event.startMon])).2
      = ["a"] ∧
    (schedule_tick (applyEvent
        (schedule_tick (run (initSys 1000 1)
          [Event.addHost "a", Event.addHost "b", Event.addHost "c", Event.startMon])).1
        (Event.finish ("a", 0)))).2 = ["a"] := by
  decide

/-- C6 counterexample: dispatch a worker for `a`, remove `a` (the
in-flight dict becomes empty), then deliver the worker's completion: the
completion re-inserts the key `("a", false)` into the in-flight dict, so
the dict is not left exactly as `remove_host` left it. -/
theorem finish_after_remove_reinserts_flag :
    (run (initSys 1000 4)
        [Event.addHost "a", Event.startMon, Event.tick, Event.removeHost "a"]
      ).sched.hostInFlight = [] ∧
    (run (initSys 1000 4)
        [Event.addHost "a", Event.startMon, Event.tick, Event.removeHost "a",
         Event.finish ("a", 0)]
      ).sched.hostInFlight = [("a", false)] := by
  decide

/-- C6 amended: every completion decrements the global in-flight count by
1 floored at 0, forces the host's in-flight flag to false and leaves the
host registry unchanged; a completion that arrives after the host was
removed leaves the registry as `remove_host` left it but re-inserts the
host into the in-flight dict with value `false` (harmless: ticks consult
only registered hosts, and `add_host` resets the flag), rather than being
a strict no-op on the dict. -/
theorem finished_decrements_and_clears (s : SchedState) (h : String)
    (hmem : h ∈ s.hosts) :
    (on_sample_finished s h).globalInFlight = max 0 (s.globalInFlight - 1) ∧
    dictGetD (on_sample_finished s h).hostInFlight h false = false ∧
    (on_sample_finished s h).hosts = s.hosts ∧
    (on_sample_finished (remove_host s h) h).hosts = (remove_host s h).hosts ∧
    (on_sample_finished (remove_host s h) h).hostInFlight =
      (remove_host s h).hostInFlight ++ [(h, false)] := by
  refine ⟨rfl, dictGetD_set_self s.hostInFlight h false false, rfl, rfl, ?_⟩
  have hrm : remove_host s h =
      { s with hosts := s.hosts.erase h, hostInFlight := dictPop s.hostInFlight h } := by
    simp [remove_host, hmem]
  rw [hrm]
  exact dictSet_not_mem (dictPop s.hostInFlight h) h false
    (dictPop_no_key s.hostInFlight h)

/-- Witness for `finished_decrements_and_clears` at a concrete state with
one in-flight host. -/
theorem finished_decrements_and_clears_witness :
    let s : SchedState :=
      { hosts := ["a"], hostInFlight := [("a", true)], globalInFlight := 1,
        generationId := 0, isMonitoring := true, interval_ms := 1000,
        maxConcurrent := 4 }
    "a" ∈ s.hosts ∧
    ((on_sample_finished s "a").globalInFlight = max 0 (s.globalInFlight - 1) ∧
      dictGetD (on_sample_finished s "a").hostInFlight "a" false = false ∧
      (on_sample_finished s "a").hosts = s.hosts ∧
      (on_sample_finished (remove_host s "a") "a").hosts = (remove_host s "a").hosts ∧
      (on_sample_finished (remove_host s "a") "a").hostInFlight =
        (remove_host s "a").hostInFlight ++ [("a", false)]) :=
  ⟨by decide, finished_decrements_and_clears _ "a" (by decide)⟩

/-- C7 counterexample: `MultiHostScheduler` constructed with
`interval_ms = 0` does not raise — the constructor stores the value
unchanged and monitoring can start, contradicting the claim that a
non-positive sampling interval is rejected at construction time. -/
theorem scheduler_accepts_nonpositive_interval :
    (MultiHostScheduler.init 0 4).interval_ms = 0 ∧
    (start_monitoring (MultiHostScheduler.init 0 4)).isMonitoring = true := by
  decide

/-- C7 amended: `PingCollector.__init__` rejects a non-positive
`timeout_ms` with a descriptive `ValueError` and accepts a positive one,
while `MultiHostScheduler.__init__` performs no validation: any
`interval_ms` (including non-positive values) is accepted and the
scheduler can start monitoring in that state. -/
theorem config_validation (t u i c : Int) (ht : t ≤ 0) (hu : 0 < u) :
    PingCollector.init t = Except.error "timeout_ms must be positive" ∧
    PingCollector.init u =
      Except.ok { timeout_ms := u, timeout_seconds := (u : Rat) / 1000 } ∧
    (MultiHostScheduler.init i c).interval_ms = i ∧
    (start_monitoring (MultiHostScheduler.init i c)).isMonitoring = true := by
  refine ⟨?_, ?_, rfl, ?_⟩
  · simp [PingCollector.init, ht]
  · simp [PingCollector.init, not_le.mpr hu]
  · simp [start_monitoring, MultiHostScheduler.init]

/-- Witness for `config_validation` at `timeout_ms = 0`, `timeout_ms = 1`
and `interval_ms = -5`. -/
theorem config_validation_witness :
    ((0 : Int) ≤ 0 ∧ (0 : Int) < 1) ∧
    (PingCollector.init 0 = Except.error "timeout_ms must be positive" ∧
      PingCollector.init 1 =
        Except.ok { timeout_ms := 1, timeout_seconds := (1 : Rat) / 1000 } ∧
      (MultiHostScheduler.init (-5) 4).interval_ms = -5 ∧
      (start_monitoring (MultiHostScheduler.init (-5) 4)).isMonitoring = true) :=
  ⟨⟨by decide, by decide⟩, config_validation 0 1 (-5) 4 (by decide) (by decide)⟩

/-- C8: after the `Measurement` constructor (with its `__post_init__`
normalization), `loss = true` holds exactly when `latency_ms` is absent;
passing `loss = true` forces the latency to `none`, and passing
`latency_ms = none` forces `loss` to `true`. -/
theorem measurement_loss_iff_latency_absent (ts : Nat) (host : String)
    (latency_ms : Option Rat) (loss : Bool) :
    ((mkMeasurement ts host latency_ms loss).loss = true ↔
      (mkMeasurement ts host latency_ms loss).latency_ms = none) ∧
    (mkMeasurement ts host latency_ms true).latency_ms = none ∧
    (mkMeasurement ts host none loss).loss = true := by
  unfold mkMeasurement
  rcases loss with _ | _ <;> rcases latency_ms with _ | x <;> simp

/-- C10: `MeasurementModel.__init__` accepts any `max_rows` without
validation, and with `max_rows ≤ 0` the at-capacity test
`len(deque) >= max_rows` is already true for the empty store, so the very
first `append_measurement` calls `popleft()` on the empty deque and
raises `IndexError`. -/
theorem append_raises_on_nonpositive_max_rows (max_rows : Int) (m : Measurement)
    (hm : max_rows ≤ 0) :
    (MeasurementModel.init max_rows).max_rows = max_rows ∧
    (MeasurementModel.init max_rows).measurements = [] ∧
    append_measurement (MeasurementModel.init max_rows) m =
      Except.error "IndexError" := by
  refine ⟨rfl, rfl, ?_⟩
  simp [append_measurement, MeasurementModel.init, hm]

/-- Witness for `append_raises_on_nonpositive_max_rows` at
`max_rows = 0`. -/
theorem append_raises_on_nonpositive_max_rows_witness :
    (0 : Int) ≤ 0 ∧
    ((MeasurementModel.init 0).max_rows = 0 ∧
      (MeasurementModel.init 0).measurements = [] ∧
      append_measurement (MeasurementModel.init 0) (mkMeasurement 0 "a" none true) =
        Except.error "IndexError") :=
  ⟨by decide, append_raises_on_nonpositive_max_rows 0 (mkMeasurement 0 "a" none true)
    (by decide)⟩

section Capacity

/-- Fields of the scheduler untouched by `add_host`. -/
theorem add_host_fields (s : SchedState) (h : String) :
    (add_host s h).globalInFlight = s.globalInFlight ∧
    (add_host s h).maxConcurrent = s.maxConcurrent ∧
    (add_host s h).isMonitoring = s.isMonitoring := by
  unfold add_host
  by_cases h1 : pyStrip h = ""
  · simp [h1]
  · by_cases h2 : pyStrip h ∈ s.hosts <;> simp [h1, h2]

/-- Fields of the scheduler untouched by `remove_host`. -/
theorem remove_host_fields (s : SchedState) (h : String) :
    (remove_host s h).globalInFlight = s.globalInFlight ∧
    (remove_host s h).maxConcurrent = s.maxConcurrent ∧
    (remove_host s h).isMonitoring = s.isMonitoring := by
  unfold remove_host
  by_cases h1 : h ∈ s.hosts <;> simp [h1]

/-- Fields of the scheduler untouched by `start_monitoring` and
`stop_monitoring`. -/
theorem start_stop_fields (s : SchedState) :
    (start_monitoring s).globalInFlight = s.globalInFlight ∧
    (start_monitoring s).maxConcurrent = s.maxConcurrent ∧
    (stop_monitoring s).globalInFlight = s.globalInFlight ∧
    (stop_monitoring s).maxConcurrent = s.maxConcurrent := by
  unfold start_monitoring stop_monitoring
  by_cases h1 : s.isMonitoring <;> simp [h1]

/-- The capacity invariant of claim C4: the configured maximum is the
constructor argument and the global in-flight count stays within
`[0, maxC]`. -/
def CapInv (maxC : Int) (s : SysState) : Prop :=
  s.sched.maxConcurrent = maxC ∧ 0 ≤ s.sched.globalInFlight ∧
    s.sched.globalInFlight ≤ maxC

theorem tickLoop_capInv (maxC : Int) (hs : List String) (s : SysState)
    (d : List String) (h : CapInv maxC s) : CapInv maxC (tickLoop hs s d).1 := by
  induction hs generalizing s d with
  | nil => simpa [tickLoop] using h
  | cons host rest ih =>
    obtain ⟨h1, h2, h3⟩ := h
    by_cases hcap : s.sched.maxConcurrent ≤ s.sched.globalInFlight
    · simpa [tickLoop, hcap] using ⟨h1, h2, h3⟩
    · by_cases hflag : dictGetD s.sched.hostInFlight host false = true
      · rw [show tickLoop (host :: rest) s d = tickLoop rest s d by
          simp [tickLoop, hcap, hflag]]
        exact ih s d ⟨h1, h2, h3⟩
      · rw [show tickLoop (host :: rest) s d
            = tickLoop rest (schedule_sample s host) (d ++ [host]) by
          simp [tickLoop, hcap, hflag]]
        apply ih
        refine ⟨by simp [schedule_sample, h1], by simp [schedule_sample]; omega, ?_⟩
        simp only [schedule_sample]
        rw [h1] at hcap
        omega

theorem tick_skipped_at_capacity (s : SysState)
    (h : s.sched.maxConcurrent ≤ s.sched.globalInFlight) :
    schedule_tick s = (s, []) := by
  unfold schedule_tick
  by_cases h1 : s.sched.isMonitoring
  · by_cases h2 : s.sched.hosts.length = 0 <;> simp [h1, h2, h]
  · simp [h1]

theorem capInv_step (maxC : Int) (s : SysState) (e : Event) (hmax : 0 ≤ maxC)
    (h : CapInv maxC s) : CapInv maxC (applyEvent s e) := by
  obtain ⟨h1, h2, h3⟩ := h
  cases e with
  | addHost hst =>
    obtain ⟨f1, f2, _⟩ := add_host_fields s.sched hst
    exact ⟨by simp [applyEvent, f2, h1], by simp [applyEvent, f1, h2],
      by simp [applyEvent, f1]; omega⟩
  | removeHost hst =>
    obtain ⟨f1, f2, _⟩ := remove_host_fields s.sched hst
    exact ⟨by simp [applyEvent, f2, h1], by simp [applyEvent, f1, h2],
      by simp [applyEvent, f1]; omega⟩
  | startMon =>
    obtain ⟨f1, f2, _, _⟩ := start_stop_fields s.sched
    exact ⟨by simp [applyEvent, f2, h1], by simp [applyEvent, f1, h2],
      by simp [applyEvent, f1]; omega⟩
  | stopMon =>
    obtain ⟨_, _, f3, f4⟩ := start_stop_fields s.sched
    exact ⟨by simp [applyEvent, f4, h1], by simp [applyEvent, f3, h2],
      by simp [applyEvent, f3]; omega⟩
  | tick =>
    show CapInv maxC (schedule_tick s).1
    unfold schedule_tick
    by_cases g1 : s.sched.isMonitoring
    · by_cases g2 : s.sched.hosts.length = 0
      · simpa [g1, g2] using ⟨h1, h2, h3⟩
      · by_cases g3 : s.sched.maxConcurrent ≤ s.sched.globalInFlight
        · simpa [g1, g2, g3] using ⟨h1, h2, h3⟩
        · simpa [g1, g2, g3] using
            tickLoop_capInv maxC s.sched.hosts s [] ⟨h1, h2, h3⟩
    · simpa [g1] using ⟨h1, h2, h3⟩
  | ready w m =>
    by_cases hw : w ∈ s.outstanding
    · refine ⟨?_, ?_, ?_⟩ <;> simp [applyEvent, hw, readyStep] <;>
        cases on_sample_ready s.sched w.2 w.1 m <;> simp [h1, h2, h3]
    · simpa [applyEvent, hw] using ⟨h1, h2, h3⟩
  | finish w =>
    by_cases hw : w ∈ s.outstanding
    · refine ⟨by simp [applyEvent, hw, on_sample_finished, h1],
        by simp [applyEvent, hw, on_sample_finished],
        by simp [applyEvent, hw, on_sample_finished]; omega⟩
    · simpa [applyEvent, hw] using ⟨h1, h2, h3⟩

/-- C4: in every state reachable from a scheduler constructed with
`max_concurrent = maxC ≥ 0`, under any interleaving of operations, ticks
and worker deliveries, `0 ≤ _global_in_flight ≤ max_concurrent`; and any
tick beginning with `_global_in_flight ≥ max_concurrent` returns without
dispatching a single worker. -/
theorem global_in_flight_bounded (interval_ms maxC : Int) (s : SysState)
    (hmax : 0 ≤ maxC) (hr : Reachable (initSys interval_ms maxC) s) :
    (0 ≤ s.sched.globalInFlight ∧ s.sched.globalInFlight ≤ s.sched.maxConcurrent ∧
      s.sched.maxConcurrent = maxC) ∧
    (s.sched.maxConcurrent ≤ s.sched.globalInFlight → schedule_tick s = (s, [])) := by
  have hinv : CapInv maxC s := by
    induction hr with
    | refl => exact ⟨rfl, le_refl 0, hmax⟩
    | step t e hr ih => exact capInv_step maxC t e hmax ih
  obtain ⟨h1, h2, h3⟩ := hinv
  exact ⟨⟨h2, by omega, h1⟩, fun hcap => tick_skipped_at_capacity s hcap⟩

/-- Witness for `global_in_flight_bounded` at the freshly constructed
scheduler with capacity 4. -/
theorem global_in_flight_bounded_witness :
    ((0 : Int) ≤ 4 ∧ Reachable (initSys 1000 4) (initSys 1000 4)) ∧
    ((0 ≤ (initSys 1000 4).sched.globalInFlight ∧
        (initSys 1000 4).sched.globalInFlight ≤ (initSys 1000 4).sched.maxConcurrent ∧
        (initSys 1000 4).sched.maxConcurrent = 4) ∧
      ((initSys 1000 4).sched.maxConcurrent ≤ (initSys 1000 4).sched.globalInFlight →
        schedule_tick (initSys 1000 4) = (initSys 1000 4, []))) :=
  ⟨⟨by decide, Reachable.refl _⟩,
   global_in_flight_bounded 1000 4 (initSys 1000 4) (by decide) (Reachable.refl _)⟩

end Capacity

section SingleFlight

theorem outCount_append (l l' : List Worker) (h : String) :
    outCount (l ++ l') h = outCount l h + outCount l' h :=
  List.countP_append _ l l'

theorem outCount_eq_zero (l : List Worker) (h : String) :
    outCount l h = 0 ↔ ∀ w ∈ l, w.1 ≠ h := by
  simp [outCount, List.countP_eq_zero]

theorem mem_eraseWorker (l : List Worker) (w w' : Worker)
    (h : w' ∈ eraseWorker l w) : w' ∈ l := by
  induction l with
  | nil => simp [eraseWorker] at h
  | cons p rest ih =>
    by_cases hp : p = w
    · rw [show eraseWorker (p :: rest) w = rest by simp [eraseWorker, hp]] at h
      exact List.mem_cons_of_mem p h
    · rw [show eraseWorker (p :: rest) w = p :: eraseWorker rest w by
        simp [eraseWorker, hp]] at h
      rcases List.mem_cons.mp h with h1 | h1
      · exact h1 ▸ List.mem_cons_self p rest
      · exact List.mem_cons_of_mem p (ih h1)

theorem outCount_eraseWorker_le (l : List Worker) (w : Worker) (h : String) :
    outCount (eraseWorker l w) h ≤ outCount l h := by
  induction l with
  | nil => simp [eraseWorker]
  | cons p rest ih =>
    by_cases hp : p = w
    · rw [show eraseWorker (p :: rest) w = rest by simp [eraseWorker, hp]]
      simp only [outCount, List.countP_cons]
      omega
    · rw [show eraseWorker (p :: rest) w = p :: eraseWorker rest w by
        simp [eraseWorker, hp]]
      simp only [outCount, List.countP_cons] at ih ⊢
      omega

theorem outCount_eraseWorker (l : List Worker) (w : Worker) (hw : w ∈ l) (h : String) :
    outCount l h = outCount (eraseWorker l w) h + (if w.1 = h then 1 else 0) := by
  induction l with
  | nil => simp at hw
  | cons p rest ih =>
    by_cases hp : p = w
    · rw [show eraseWorker (p :: rest) w = rest by simp [eraseWorker, hp]]
      simp only [outCount, List.countP_cons, hp]
      by_cases hh : w.1 = h <;> simp [hh]
    · have hw' : w ∈ rest := by
        rcases List.mem_cons.mp hw with h1 | h1
        · exact absurd h1.symm hp
        · exact h1
      rw [show eraseWorker (p :: rest) w = p :: eraseWorker rest w by
        simp [eraseWorker, hp]]
      simp only [outCount, List.countP_cons]
      have hrec := ih hw'
      simp only [outCount] at hrec
      omega

end SingleFlight

section SingleFlight2

theorem outCount_singleton (host : String) (g : Nat) (h : String) :
    outCount [(host, g)] h = if host = h then 1 else 0 := by
  by_cases hh : host = h <;> simp [outCount, List.countP_cons, hh]

theorem schedule_sample_hosts (s : SysState) (h : String) :
    (schedule_sample s h).sched.hosts = s.sched.hosts := rfl

/-- Host registry and in-flight dict are untouched by starting or
stopping monitoring. -/
theorem start_stop_structure (s : SchedState) :
    (start_monitoring s).hosts = s.hosts ∧
    (start_monitoring s).hostInFlight = s.hostInFlight ∧
    (stop_monitoring s).hosts = s.hosts ∧
    (stop_monitoring s).hostInFlight = s.hostInFlight := by
  unfold start_monitoring stop_monitoring
  by_cases h1 : s.isMonitoring <;> simp [h1]

/-- The single-flight invariant together with its two supporting facts:
every host has at most one outstanding worker, every outstanding worker
targets a registered host, and every outstanding worker's host is flagged
in-flight. -/
def FlightInv (s : SysState) : Prop :=
  (∀ h, outCount s.outstanding h ≤ 1) ∧
  (∀ w ∈ s.outstanding, w.1 ∈ s.sched.hosts) ∧
  (∀ w ∈ s.outstanding, dictGetD s.sched.hostInFlight w.1 false = true)

theorem schedule_sample_flightInv (s : SysState) (host : String)
    (hmem : host ∈ s.sched.hosts)
    (hflag : ¬ dictGetD s.sched.hostInFlight host false = true)
    (hinv : FlightInv s) : FlightInv (schedule_sample s host) := by
  obtain ⟨i1, i2, i3⟩ := hinv
  have hzero : outCount s.outstanding host = 0 :=
    (outCount_eq_zero _ _).mpr (fun w hw heq => hflag (heq ▸ i3 w hw))
  refine ⟨?_, ?_, ?_⟩
  · intro h
    show outCount (s.outstanding ++ [(host, s.sched.generationId)]) h ≤ 1
    rw [outCount_append, outCount_singleton]
    by_cases hh : host = h
    · subst hh
      rw [hzero]
      simp
    · simpa [hh] using i1 h
  · intro w hw
    rcases List.mem_append.mp hw with h1 | h1
    · exact i2 w h1
    · have : w = (host, s.sched.generationId) := List.mem_singleton.mp h1
      rw [this]
      exact hmem
  · intro w hw
    show dictGetD (dictSet s.sched.hostInFlight host true) w.1 false = true
    by_cases hh : w.1 = host
    · rw [hh]
      exact dictGetD_set_self _ _ _ _
    · rw [dictGetD_set_ne _ _ _ _ _ hh]
      rcases List.mem_append.mp hw with h1 | h1
      · exact i3 w h1
      · exact absurd (congrArg Prod.fst (List.mem_singleton.mp h1)) hh

theorem tickLoop_flightInv (hs : List String) (s : SysState) (d : List String)
    (hsub : ∀ h ∈ hs, h ∈ s.sched.hosts) (hinv : FlightInv s) :
    FlightInv (tickLoop hs s d).1 := by
  induction hs generalizing s d with
  | nil => simpa [tickLoop] using hinv
  | cons host rest ih =>
    by_cases hcap : s.sched.maxConcurrent ≤ s.sched.globalInFlight
    · simpa [tickLoop, hcap] using hinv
    · by_cases hflag : dictGetD s.sched.hostInFlight host false = true
      · rw [show tickLoop (host :: rest) s d = tickLoop rest s d by
          simp [tickLoop, hcap, hflag]]
        exact ih s d (fun h hh => hsub h (List.mem_cons_of_mem _ hh)) hinv
      · rw [show tickLoop (host :: rest) s d
            = tickLoop rest (schedule_sample s host) (d ++ [host]) by
          simp [tickLoop, hcap, hflag]]
        refine ih (schedule_sample s host) (d ++ [host]) ?_ ?_
        · intro h hh
          rw [schedule_sample_hosts]
          exact hsub h (List.mem_cons_of_mem _ hh)
        · exact schedule_sample_flightInv s host
            (hsub host (List.mem_cons_self _ _)) hflag hinv

theorem flightInv_step (s : SysState) (e : Event) (hok : OkEvent s e)
    (hinv : FlightInv s) : FlightInv (applyEvent s e) := by
  obtain ⟨i1, i2, i3⟩ := hinv
  cases e with
  | addHost hst =>
    show FlightInv { s with sched := add_host s.sched hst }
    by_cases h1 : pyStrip hst = ""
    · rw [show add_host s.sched hst = s.sched by simp [add_host, h1]]
      exact ⟨i1, i2, i3⟩
    · by_cases h2 : pyStrip hst ∈ s.sched.hosts
      · rw [show add_host s.sched hst = s.sched by simp [add_host, h1, h2]]
        exact ⟨i1, i2, i3⟩
      · rw [show add_host s.sched hst = { s.sched with
            hosts := s.sched.hosts ++ [pyStrip hst],
            hostInFlight := dictSet s.sched.hostInFlight (pyStrip hst) false } by
          simp [add_host, h1, h2]]
        refine ⟨i1, ?_, ?_⟩
        · intro w hw
          exact List.mem_append_left _ (i2 w hw)
        · intro w hw
          have hne : w.1 ≠ pyStrip hst := fun heq => h2 (heq ▸ i2 w hw)
          show dictGetD (dictSet s.sched.hostInFlight (pyStrip hst) false) w.1 false = true
          rw [dictGetD_set_ne _ _ _ _ _ hne]
          exact i3 w hw
  | removeHost hst =>
    have hzero : ∀ w ∈ s.outstanding, w.1 ≠ hst := (outCount_eq_zero _ _).mp hok
    show FlightInv { s with sched := remove_host s.sched hst }
    by_cases h1 : hst ∈ s.sched.hosts
    · rw [show remove_host s.sched hst = { s.sched with
          hosts := s.sched.hosts.erase hst,
          hostInFlight := dictPop s.sched.hostInFlight hst } by simp [remove_host, h1]]
      refine ⟨i1, ?_, ?_⟩
      · intro w hw
        exact (List.mem_erase_of_ne (hzero w hw)).mpr (i2 w hw)
      · intro w hw
        show dictGetD (dictPop s.sched.hostInFlight hst) w.1 false = true
        rw [dictGetD_pop_ne _ _ _ _ (hzero w hw)]
        exact i3 w hw
    · rw [show remove_host s.sched hst = s.sched by simp [remove_host, h1]]
      exact ⟨i1, i2, i3⟩
  | startMon =>
    show FlightInv { s with sched := start_monitoring s.sched }
    obtain ⟨f1, f2, _, _⟩ := start_stop_structure s.sched
    refine ⟨i1, ?_, ?_⟩
    · intro w hw
      rw [show ({ s with sched := start_monitoring s.sched } : SysState).sched.hosts
          = (start_monitoring s.sched).hosts from rfl, f1]
      exact i2 w hw
    · intro w hw
      rw [show ({ s with sched := start_monitoring s.sched } : SysState).sched.hostInFlight
          = (start_monitoring s.sched).hostInFlight from rfl, f2]
      exact i3 w hw
  | stopMon =>
    show FlightInv { s with sched := stop_monitoring s.sched }
    obtain ⟨_, _, f3, f4⟩ := start_stop_structure s.sched
    refine ⟨i1, ?_, ?_⟩
    · intro w hw
      rw [show ({ s with sched := stop_monitoring s.sched } : SysState).sched.hosts
          = (stop_monitoring s.sched).hosts from rfl, f3]
      exact i2 w hw
    · intro w hw
      rw [show ({ s with sched := stop_monitoring s.sched } : SysState).sched.hostInFlight
          = (stop_monitoring s.sched).hostInFlight from rfl, f4]
      exact i3 w hw
  | tick =>
    show FlightInv (schedule_tick s).1
    unfold schedule_tick
    by_cases g1 : s.sched.isMonitoring
    · by_cases g2 : s.sched.hosts.length = 0
      · simpa [g1, g2] using ⟨i1, i2, i3⟩
      · by_cases g3 : s.sched.maxConcurrent ≤ s.sched.globalInFlight
        · simpa [g1, g2, g3] using ⟨i1, i2, i3⟩
        · simpa [g1, g2, g3] using
            tickLoop_flightInv s.sched.hosts s [] (fun h hh => hh) ⟨i1, i2, i3⟩
    · simpa [g1] using ⟨i1, i2, i3⟩
  | ready w m =>
    by_cases hw : w ∈ s.outstanding
    · have hs1 : (readyStep s w m).sched = s.sched := by
        unfold readyStep
        cases on_sample_ready s.sched w.2 w.1 m <;> rfl
      have ho1 : (readyStep s w m).outstanding = s.outstanding := by
        unfold readyStep
        cases on_sample_ready s.sched w.2 w.1 m <;> rfl
      rw [show applyEvent s (Event.ready w m) = readyStep s w m by simp [applyEvent, hw]]
      unfold FlightInv
      rw [hs1, ho1]
      exact ⟨i1, i2, i3⟩
    · rw [show applyEvent s (Event.ready w m) = s by simp [applyEvent, hw]]
      exact ⟨i1, i2, i3⟩
  | finish w =>
    by_cases hw : w ∈ s.outstanding
    · rw [show applyEvent s (Event.finish w) = { s with
          outstanding := eraseWorker s.outstanding w,
          sched := on_sample_finished s.sched w.1 } by simp [applyEvent, hw]]
      refine ⟨?_, ?_, ?_⟩
      · intro h
        exact le_trans (outCount_eraseWorker_le s.outstanding w h) (i1 h)
      · intro w' hw'
        exact i2 w' (mem_eraseWorker _ _ _ hw')
      · intro w' hw'
        by_cases heq : w'.1 = w.1
        · exfalso
          have h1 := outCount_eraseWorker s.outstanding w hw w.1
          have h2 : 0 < outCount (eraseWorker s.outstanding w) w.1 :=
            List.countP_pos_iff.mpr ⟨w', hw', by simp [heq]⟩
          have h3 := i1 w.1
          rw [if_pos rfl] at h1
          omega
        · show dictGetD (dictSet s.sched.hostInFlight w.1 false) w'.1 false = true
          rw [dictGetD_set_ne _ _ _ _ _ heq]
          exact i3 w' (mem_eraseWorker _ _ _ hw')
    · rw [show applyEvent s (Event.finish w) = s by simp [applyEvent, hw]]
      exact ⟨i1, i2, i3⟩

theorem flightInv_reachableR (s0 s : SysState) (h0 : FlightInv s0)
    (hr : ReachableR s0 s) : FlightInv s := by
  induction hr with
  | refl => exact h0
  | step t e hr hok ih => exact flightInv_step t e hok ih

end SingleFlight2

/-- C3 counterexample: with capacity 2, dispatch a worker for host `a`,
remove `a` while its worker is outstanding, re-add `a`, and tick again:
the registry's fresh in-flight flag is false, so a second worker for `a`
is dispatched while the first is still outstanding — two workers
outstanding for one host under an interleaving of exactly the operations
the claim quantifies over. -/
theorem remove_readd_breaks_single_flight :
    outCount (run (initSys 1000 2)
      [Event.addHost "a", Event.startMon, Event.tick, Event.removeHost "a",
       Event.addHost "a", Event.tick]).outstanding "a" = 2 := by
  decide

/-- C3 amended: at most one worker is outstanding per host in every state
reachable under ticks, `add_host`, `start_monitoring`, `stop_monitoring`,
worker deliveries, and `remove_host` restricted to hosts with no
outstanding worker (removing a host while its worker is outstanding and
re-adding it defeats the per-host flag, see the counterexample). -/
theorem single_flight_per_host (interval_ms maxC : Int) (s : SysState)
    (hr : ReachableR (initSys interval_ms maxC) s) (h : String) :
    outCount s.outstanding h ≤ 1 := by
  have h0 : FlightInv (initSys interval_ms maxC) := by
    refine ⟨fun h => ?_, fun w hw => ?_, fun w hw => ?_⟩
    · simp [initSys, outCount]
    · simp [initSys] at hw
    · simp [initSys] at hw
  exact (flightInv_reachableR _ _ h0 hr).1 h

/-- Witness for `single_flight_per_host` after one `add_host` step. -/
theorem single_flight_per_host_witness :
    outCount (applyEvent (initSys 1000 2) (Event.addHost "a")).outstanding "a" ≤ 1 :=
  single_flight_per_host 1000 2 _
    (ReachableR.step _ _ (Event.addHost "a") (ReachableR.refl _) (by trivial)) "a"

section ResultStore

/-- Invariant of the result store relative to the arrival sequence `acc`:
the capacity field equals the constructor argument, the store holds at
most that many rows, and its contents are a contiguous tail of the
arrivals (arrival order). -/
def StoreInv (maxR : Int) (acc : List Measurement) (mm : MeasurementModel) : Prop :=
  mm.max_rows = maxR ∧ ((mm.measurements.length : Int) ≤ maxR) ∧
    List.IsSuffix mm.measurements acc

theorem append_measurement_storeInv (maxR : Int) (h1 : 1 ≤ maxR)
    (mm : MeasurementModel) (acc : List Measurement) (m : Measurement)
    (hinv : StoreInv maxR acc mm) :
    ∃ mm', append_measurement mm m = Except.ok mm' ∧
      StoreInv maxR (acc ++ [m]) mm' := by
  obtain ⟨e1, e2, e3⟩ := hinv
  by_cases hcap : mm.max_rows ≤ (mm.measurements.length : Int)
  · have hlen : (mm.measurements.length : Int) = maxR := le_antisymm e2 (e1 ▸ hcap)
    have hne : mm.measurements ≠ [] := by
      intro hnil
      rw [hnil] at hlen
      simp at hlen
      omega
    obtain ⟨x, rest, hx⟩ := List.exists_cons_of_ne_nil hne
    refine ⟨{ mm with measurements := rest ++ [m] }, ?_, e1, ?_, ?_⟩
    · unfold append_measurement
      rw [if_pos hcap, hx]
    · have hlc : rest.length + 1 = mm.measurements.length := by rw [hx]; rfl
      simp only [List.length_append, List.length_cons, List.length_nil]
      omega
    · obtain ⟨t, ht⟩ := e3
      refine ⟨t ++ [x], ?_⟩
      rw [← ht, hx]
      simp
  · refine ⟨{ mm with measurements := mm.measurements ++ [m] }, ?_, e1, ?_, ?_⟩
    · simp [append_measurement, hcap]
    · rw [e1] at hcap
      simp only [List.length_append, List.length_cons, List.length_nil]
      push_cast
      omega
    · obtain ⟨t, ht⟩ := e3
      exact ⟨t, by rw [← List.append_assoc, ht]⟩

theorem runOps_storeInv (maxR : Int) (h1 : 1 ≤ maxR) (ops : List MOp)
    (mm : MeasurementModel) (acc : List Measurement) (hinv : StoreInv maxR acc mm) :
    ∃ mm', runOps mm ops = Except.ok mm' ∧
      StoreInv maxR (acc ++ appendedVals ops) mm' := by
  induction ops generalizing mm acc with
  | nil => exact ⟨mm, rfl, by simpa [StoreInv, appendedVals] using hinv⟩
  | cons op rest ih =>
    cases op with
    | append m =>
      obtain ⟨mm', hok, hinv'⟩ := append_measurement_storeInv maxR h1 mm acc m hinv
      obtain ⟨mm'', hok', hinv''⟩ := ih mm' (acc ++ [m]) hinv'
      refine ⟨mm'', ?_, ?_⟩
      · simp [runOps, hok, hok']
      · simpa [StoreInv, appendedVals, List.append_assoc] using hinv''
    | clear =>
      obtain ⟨e1, e2, e3⟩ := hinv
      have hinvc : StoreInv maxR acc mm.clear := by
        unfold MeasurementModel.clear
        by_cases hz : mm.measurements.length = 0
        · simpa [hz] using ⟨e1, e2, e3⟩
        · exact ⟨by simp [hz, e1], by simp [hz]; omega, by simp [hz]⟩
      obtain ⟨mm'', hok', hinv''⟩ := ih mm.clear acc hinvc
      exact ⟨mm'', by simp [runOps, hok'], by simpa [StoreInv, appendedVals] using hinv''⟩

/-- C9: a result store constructed with `max_rows ≥ 1` never raises under
any sequence of appends and clears, always holds at most `max_rows`
measurements forming a contiguous tail of the arrival sequence (arrival
order), and an append performed exactly at capacity evicts precisely the
oldest entry and inserts the new measurement at the end. -/
theorem store_bounded_arrival_order (maxR : Int) (ops : List MOp) (h1 : 1 ≤ maxR) :
    ∃ mm, runOps (MeasurementModel.init maxR) ops = Except.ok mm ∧
      (mm.measurements.length : Int) ≤ maxR ∧
      List.IsSuffix mm.measurements (appendedVals ops) ∧
      ∀ m, (mm.measurements.length : Int) = maxR →
        append_measurement mm m =
          Except.ok { measurements := mm.measurements.tail ++ [m], max_rows := maxR } := by
  obtain ⟨mm, hok, e1, e2, e3⟩ :=
    runOps_storeInv maxR h1 ops (MeasurementModel.init maxR) []
      ⟨rfl, by simp [MeasurementModel.init]; omega, ⟨[], rfl⟩⟩
  refine ⟨mm, hok, e2, by simp only [List.nil_append] at e3; exact e3, ?_⟩
  intro m hlen
  have hcap : mm.max_rows ≤ (mm.measurements.length : Int) := by rw [e1, hlen]
  have hne : mm.measurements ≠ [] := by
    intro hnil
    rw [hnil] at hlen
    simp at hlen
    omega
  obtain ⟨x, rest, hx⟩ := List.exists_cons_of_ne_nil hne
  rw [show append_measurement mm m
      = Except.ok { mm with measurements := rest ++ [m] } by
    unfold append_measurement
    rw [if_pos hcap, hx]]
  rw [hx]
  simp [e1]

/-- Witness for `store_bounded_arrival_order` at capacity 1 with two
appends. -/
theorem store_bounded_arrival_order_witness :
    (1 : Int) ≤ 1 ∧
    (∃ mm, runOps (MeasurementModel.init 1)
        [MOp.append (mkMeasurement 0 "a" (some 5) false),
         MOp.append (mkMeasurement 1 "b" none true)] = Except.ok mm ∧
      (mm.measurements.length : Int) ≤ 1 ∧
      List.IsSuffix mm.measurements
        (appendedVals [MOp.append (mkMeasurement 0 "a" (some 5) false),
          MOp.append (mkMeasurement 1 "b" none true)]) ∧
      ∀ m, (mm.measurements.length : Int) = 1 →
        append_measurement mm m =
          Except.ok { measurements := mm.measurements.tail ++ [m], max_rows := 1 }) :=
  ⟨by decide,
   store_bounded_arrival_order 1
     [MOp.append (mkMeasurement 0 "a" (some 5) false),
      MOp.append (mkMeasurement 1 "b" none true)] (by decide)⟩

end ResultStore
